import Mathlib

/-!
Verification of the incremental re-evaluation engine of src/memoize.cpp.

The engine is a tree of boost::proto expression nodes, each wrapped by the
memoize<> template which adds a mutable dirty flag (initialized true) and a
mutable cached result.  Leaves are terminals holding an input<T>: a reference
to a host-owned mutable value plus a private cache that is value-initialized
at construction.  reevaluate runs a marking pass (mark_dirty_context) and then
an evaluation pass (eval_cache_context).

Shallow embedding choices:
* External values are modelled by an environment Env = Nat → Int; a terminal
  stores the id of the variable it references.  Mutating a host value is a
  point update of the environment (setVar).
* The demo instantiates the value type at int; operator nodes carry their
  semantic binary operation as a function Int → Int → Int, covering the
  heterogeneous proto operator tags uniformly (default_eval applies the
  tag's operation to the evaluated children).
* C++ in-place mutation of the mutable dirty/cache fields becomes explicit
  state passing: each pass returns the updated tree.
* The passes additionally return ghost instrumentation counters (number of
  terminal comparisons made by the marking pass; number of operator
  applications and terminal refreshes made by the evaluation pass).  These
  counters mirror the instrumentation the specification's testable
  properties talk about and do not influence the computed values.
-/

/-- The host-owned mutable external values, indexed by variable id. -/
abbrev Env : Type := Nat → Int

/-- Point mutation of one external value (the host writing through its
reference, e.g. `e.i2 += 5`). -/
def setVar (env : Env) (v : Nat) (x : Int) : Env :=
  fun u => if u = v then x else env u

/-- input<T> (src/memoize.cpp): wraps a reference to an external value
(`var` is the id of the referenced host variable) together with a private
cache.  The constructor `input(T& source) : src(source), cache()` leaves the
cache value-initialized (0 for int), not a copy of the source. -/
structure Input where
  var : Nat
  cache : Int

/-- A memoize-wrapped proto expression tree: a terminal holding an input, or
a binary operator node holding its two children by value.  Every node has the
memoize<> dirty flag; operator nodes use the memoize<> cached result (the
terminal's result member is never read or written by either context, so it is
omitted). -/
inductive Memoize where
  | term (val : Input) (dirty : Bool)
  | node (op : Int → Int → Int) (l r : Memoize) (dirty : Bool) (result : Int)

/-- Dirty flag of the root node. -/
def getDirty : Memoize → Bool
  | .term _ d => d
  | .node _ _ _ d _ => d

/-- Left child of an operator node (identity on terminals). -/
def childL : Memoize → Memoize
  | .node _ l _ _ _ => l
  | t => t

/-- Right child of an operator node (identity on terminals). -/
def childR : Memoize → Memoize
  | .node _ _ r _ _ => r
  | t => t

/-- The value currently held in a node's cache: the private cache of a
terminal's input, the cached result of an operator node. -/
def cacheVal : Memoize → Int
  | .term i _ => i.cache
  | .node _ _ _ _ res => res

/-- Number of terminals of the tree. -/
def numTerms : Memoize → Nat
  | .term _ _ => 1
  | .node _ l r _ _ => numTerms l + numTerms r

/-- Number of operator nodes of the tree. -/
def numOps : Memoize → Nat
  | .term _ _ => 0
  | .node _ l r _ _ => numOps l + numOps r + 1

/-- Every node of the tree is dirty (the state of a freshly built tree). -/
def allDirty : Memoize → Bool
  | .term _ d => d
  | .node _ l r d _ => d && allDirty l && allDirty r

/-- Every node of the tree is clean. -/
def allClean : Memoize → Bool
  | .term _ d => !d
  | .node _ l r d _ => !d && allClean l && allClean r

/-- Every terminal's private cache still holds the value-initialized
default (0). -/
def cachesDefault : Memoize → Bool
  | .term i _ => i.cache == 0
  | .node _ l r _ _ => cachesDefault l && cachesDefault r

/-- Direct, uncached evaluation of the expression over the current external
values: the reference semantics that the memoized engine is supposed to
refine.  It reads only the shape of the tree (variables and operators), never
the flags or caches. -/
def directEval (env : Env) : Memoize → Int
  | .term i _ => env i.var
  | .node op l r _ _ => op (directEval env l) (directEval env r)

/-- Result of the marking pass: the updated tree, the boolean the pass
returns (the root's recomputed dirty flag), and a ghost count of how many
terminal comparisons (`cache == src`) the pass performed. -/
structure MarkOut where
  tree : Memoize
  res : Bool
  comps : Nat

/-- mark_dirty_context (src/memoize.cpp).  Terminal: assign
`dirty = !(cache == src)` and return it.  Operator node: if already dirty,
return true immediately without visiting any child; otherwise fold over both
children left to right — both are always marked, std::bind evaluates the
eval of each child eagerly, so there is no sibling short-circuit — assign
the logical OR of their results to the node's dirty flag and return it. -/
def mark_dirty (env : Env) : Memoize → MarkOut
  | .term i _ =>
      let d := !(i.cache == env i.var)
      ⟨.term i d, d, 1⟩
  | .node op l r d res =>
      if d then ⟨.node op l r d res, d, 0⟩
      else
        let ml := mark_dirty env l
        let mr := mark_dirty env r
        let d := ml.res || mr.res
        ⟨.node op ml.tree mr.tree d res, d, ml.comps + mr.comps⟩

/-- Result of the evaluation pass: the updated tree, the returned value, and
ghost counts of how many operator applications and how many terminal
refreshes the pass performed. -/
structure EvalOut where
  tree : Memoize
  val : Int
  ops : Nat
  terms : Nat

/-- eval_cache_context (src/memoize.cpp).  Terminal: unconditionally copy the
external value into the cache, clear the dirty flag and return the cache.
Operator node: if dirty, evaluate both children (default_eval), apply the
operator once, store the result, clear the flag and return the new result;
if clean, return the cached result without visiting any child. -/
def eval_cache (env : Env) : Memoize → EvalOut
  | .term i _ =>
      let c := env i.var
      ⟨.term ⟨i.var, c⟩ false, c, 0, 1⟩
  | .node op l r d res =>
      if d then
        let el := eval_cache env l
        let er := eval_cache env r
        let res := op el.val er.val
        ⟨.node op el.tree er.tree false res, res, el.ops + er.ops + 1, el.terms + er.terms⟩
      else ⟨.node op l r d res, res, 0, 0⟩

/-- reevaluate (src/memoize.cpp): run the marking pass, then the evaluation
pass, in that order, returning the updated tree and the computed value. -/
def reevaluate (env : Env) (t : Memoize) : Memoize × Int :=
  let m := mark_dirty env t
  let e := eval_cache env m.tree
  (e.tree, e.val)

/-- renderer (src/memoize.cpp): the type-erased reevaluation slot.  Its
std::function is either empty or captures one memoize tree by value; invoking
the slot reevaluates the captured tree in place, and with no tree bound the
call does nothing (`if (_f) _f();`). -/
def renderInvoke (env : Env) : Option Memoize → Option Memoize
  | none => none
  | some t => some (reevaluate env t).1

/-- Trees as produced by the construction phase: terminals come from
`in(...)` with a value-initialized cache, and every memoize wrapper is
constructed with `dirty(true)`; the result member starts indeterminate, so
any value is allowed for it. -/
inductive Built : Memoize → Prop where
  | term (v : Nat) : Built (.term ⟨v, 0⟩ true)
  | node (op : Int → Int → Int) (res : Int) {l r : Memoize} :
      Built l → Built r → Built (.node op l r true res)

/-- The states of a tree reachable by the engine's lifecycle: build the tree,
then interleave external-value mutations with reevaluate calls arbitrarily. -/
inductive Reachable : Env → Memoize → Prop where
  | fresh {env : Env} {t : Memoize} : Built t → Reachable env t
  | mutate {env : Env} {t : Memoize} (v : Nat) (x : Int) :
      Reachable env t → Reachable (setVar env v x) t
  | reeval {env : Env} {t : Memoize} :
      Reachable env t → Reachable env (reevaluate env t).1

/-- The cache-coherence invariant maintained across the whole lifecycle:
whenever an operator node is clean, its children are clean as well and its
cached result is its operator applied to the values currently held in its
children's caches. -/
def cachedInv : Memoize → Prop
  | .term _ _ => True
  | .node op l r d res => cachedInv l ∧ cachedInv r ∧
      (d = false → getDirty l = false ∧ getDirty r = false ∧
        res = op (cacheVal l) (cacheVal r))

/-- Unconditional cache coherence: every operator node's cached result is its
operator applied to its children's cached values (the state after a completed
evaluation pass, where every node is clean). -/
def consistent : Memoize → Prop
  | .term _ _ => True
  | .node op l r _ res => consistent l ∧ consistent r ∧
      res = op (cacheVal l) (cacheVal r)

/-- What the marking pass establishes with respect to the environment it ran
against: every clean terminal's cache agrees with its external value, and
every clean operator node has clean children and a cached result equal to the
direct evaluation of its children over that environment. -/
def markedInv (env : Env) : Memoize → Prop
  | .term i d => d = false → i.cache = env i.var
  | .node op l r d res => markedInv env l ∧ markedInv env r ∧
      (d = false → getDirty l = false ∧ getDirty r = false ∧
        res = op (directEval env l) (directEval env r))

/-- States the engine's lifecycle can leave a tree in between operations:
either everything is dirty (freshly built) or everything is clean and the
caches are coherent. -/
def rInv (t : Memoize) : Prop :=
  allDirty t = true ∨ (allClean t = true ∧ consistent t)

/-! ### Concrete instances (the demo of src/memoize.cpp and test trees) -/

/-- The demo binary operation: integer addition. -/
def addOp : Int → Int → Int := fun a b => a + b

/-- The demo external values: i1=1, i2=11, i3=111 (variables 0, 1, 2). -/
def envABC : Env := fun v => if v = 0 then 1 else if v = 1 then 11 else 111

/-- The demo expression in(i1) + in(i2) + in(i3), freshly built:
left-associated, every cache value-initialized, every node dirty. -/
def treeABC : Memoize :=
  .node addOp
    (.node addOp (.term ⟨0, 0⟩ true) (.term ⟨1, 0⟩ true) true 0)
    (.term ⟨2, 0⟩ true) true 0

/-- The demo tree after its first reevaluate: the fully evaluated state. -/
def treeABC1 : Memoize := (reevaluate envABC treeABC).1

/-- The demo external values after the mutation `b = 16`. -/
def envABC2 : Env := setVar envABC 1 16

/-- External values for the (a+b)+(c+d) scenario: a=1, b=2, c=3, d=4. -/
def env4 : Env := fun v => if v = 0 then 1 else if v = 1 then 2 else if v = 2 then 3 else 4

/-- The tree (a+b) + (c+d), freshly built over variables 0..3. -/
def tree4 : Memoize :=
  .node addOp
    (.node addOp (.term ⟨0, 0⟩ true) (.term ⟨1, 0⟩ true) true 0)
    (.node addOp (.term ⟨2, 0⟩ true) (.term ⟨3, 0⟩ true) true 0) true 0

/-- The tree (a+b)+(c+d) after its first reevaluate. -/
def tree41 : Memoize := (reevaluate env4 tree4).1

/-- The (a+b)+(c+d) external values after mutating only a to 10. -/
def env4b : Env := setVar env4 0 10

/-- The fully evaluated (a+b)+(c+d) tree after the marking pass that follows
the mutation of a. -/
def tree4m : Memoize := (mark_dirty env4b tree41).tree

/-- External values for the two-terminal tree a+b: a=1, b=2. -/
def envC2 : Env := fun v => if v = 0 then 1 else 2

/-- The tree a + b over variables 0 and 1, freshly built. -/
def treeC2 : Memoize := .node addOp (.term ⟨0, 0⟩ true) (.term ⟨1, 0⟩ true) true 0

/-- The tree a + b after its first reevaluate. -/
def treeC2e : Memoize := (reevaluate envC2 treeC2).1

/-- The a+b external values after mutating a to 10. -/
def envC2m : Env := setVar envC2 0 10

/-- An environment in which every external value equals the
value-initialized terminal cache. -/
def envZero : Env := fun _ => 0

/-! ### Basic lemmas about the two passes -/

/-- The boolean returned by the marking pass is the marked root's new dirty
flag. -/
theorem mark_res_eq (env : Env) (t : Memoize) :
    (mark_dirty env t).res = getDirty (mark_dirty env t).tree := by
  cases t with
  | term i d => simp [mark_dirty, getDirty]
  | node op l r d res => cases d <;> simp [mark_dirty, getDirty]

/-- The marking pass changes only flags, never the shape of the tree: direct
evaluation is unaffected. -/
theorem directEval_mark (env env2 : Env) (t : Memoize) :
    directEval env2 (mark_dirty env t).tree = directEval env2 t := by
  induction t with
  | term i d => simp [mark_dirty, directEval]
  | node op l r d res ihl ihr =>
      cases d
      · simp [mark_dirty, directEval, ihl, ihr]
      · simp [mark_dirty, directEval]

/-- The evaluation pass changes only flags and caches, never the shape of the
tree: direct evaluation is unaffected. -/
theorem directEval_eval (env env2 : Env) (t : Memoize) :
    directEval env2 (eval_cache env t).tree = directEval env2 t := by
  induction t with
  | term i d => simp [eval_cache, directEval]
  | node op l r d res ihl ihr =>
      cases d
      · simp [eval_cache, directEval]
      · simp [eval_cache, directEval, ihl, ihr]

/-- reevaluate never changes the shape of the tree. -/
theorem directEval_reevaluate (env env2 : Env) (t : Memoize) :
    directEval env2 (reevaluate env t).1 = directEval env2 t := by
  simp [reevaluate, directEval_eval, directEval_mark]

/-- The marking pass never touches a cache or a cached result. -/
theorem cacheVal_mark (env : Env) (t : Memoize) :
    cacheVal (mark_dirty env t).tree = cacheVal t := by
  cases t with
  | term i d => simp [mark_dirty, cacheVal]
  | node op l r d res => cases d <;> simp [mark_dirty, cacheVal]

/-- The evaluation pass returns exactly the value left in the root's cache. -/
theorem eval_val_cacheVal (env : Env) (t : Memoize) :
    (eval_cache env t).val = cacheVal (eval_cache env t).tree := by
  cases t with
  | term i d => simp [eval_cache, cacheVal]
  | node op l r d res => cases d <;> simp [eval_cache, cacheVal]

/-- The evaluation pass always leaves the root clean. -/
theorem eval_root_clean (env : Env) (t : Memoize) :
    getDirty (eval_cache env t).tree = false := by
  cases t with
  | term i d => simp [eval_cache, getDirty]
  | node op l r d res => cases d <;> simp [eval_cache, getDirty]

/-! ### The marked-tree invariant and correctness of the evaluation pass -/

/-- In a marked tree, a clean root means the entire subtree is clean, its
root cache already holds the direct evaluation, and the caches are
coherent. -/
theorem markedInv_clean (env : Env) (t : Memoize) (h : markedInv env t)
    (hc : getDirty t = false) :
    allClean t = true ∧ cacheVal t = directEval env t ∧ consistent t := by
  induction t with
  | term i d =>
      simp only [getDirty] at hc
      subst hc
      have hcache := h rfl
      simp [allClean, cacheVal, directEval, consistent, hcache]
  | node op l r d res ihl ihr =>
      simp only [getDirty] at hc
      subst hc
      obtain ⟨hl, hr, himp⟩ := h
      obtain ⟨hdl, hdr, hres⟩ := himp rfl
      obtain ⟨acl, cvl, col⟩ := ihl hl hdl
      obtain ⟨acr, cvr, cor⟩ := ihr hr hdr
      refine ⟨by simp [allClean, acl, acr], by simp [cacheVal, directEval, hres], ?_⟩
      exact ⟨col, cor, by rw [hres, cvl, cvr]⟩

/-- Running the evaluation pass on any tree satisfying the marked-tree
invariant returns the direct evaluation of the tree and leaves every node
clean with coherent caches. -/
theorem eval_cache_correct (env : Env) (t : Memoize) (h : markedInv env t) :
    (eval_cache env t).val = directEval env t ∧
    allClean (eval_cache env t).tree = true ∧
    consistent (eval_cache env t).tree := by
  induction t with
  | term i d => simp [eval_cache, directEval, allClean, consistent]
  | node op l r d res ihl ihr =>
      obtain ⟨hl, hr, himp⟩ := h
      cases d with
      | false =>
          have hm : markedInv env (Memoize.node op l r false res) := ⟨hl, hr, himp⟩
          obtain ⟨ac, cv, co⟩ :=
            markedInv_clean env (Memoize.node op l r false res) hm rfl
          refine ⟨?_, ?_, ?_⟩
          · simpa [eval_cache, cacheVal] using cv
          · simpa [eval_cache] using ac
          · simpa [eval_cache] using co
      | true =>
          obtain ⟨vl, acl, col⟩ := ihl hl
          obtain ⟨vr, acr, cor⟩ := ihr hr
          refine ⟨?_, ?_, ?_⟩
          · simp [eval_cache, directEval, vl, vr]
          · simp [eval_cache, allClean, acl, acr]
          · refine ⟨col, cor, ?_⟩
            rw [← eval_val_cacheVal env l, ← eval_val_cacheVal env r]

/-! ### The marking pass establishes the marked-tree invariant -/

/-- Marking an all-clean, cache-coherent tree establishes the marked-tree
invariant for the environment it ran against. -/
theorem mark_markedInv_clean (env : Env) (t : Memoize)
    (h1 : allClean t = true) (h2 : consistent t) :
    markedInv env (mark_dirty env t).tree := by
  induction t with
  | term i d => simp [mark_dirty, markedInv]
  | node op l r d res ihl ihr =>
      simp only [allClean, Bool.and_eq_true, Bool.not_eq_true'] at h1
      obtain ⟨⟨hd, hacl⟩, hacr⟩ := h1
      obtain ⟨col, cor, hres⟩ := h2
      subst hd
      have ml := ihl hacl col
      have mr := ihr hacr cor
      show markedInv env (Memoize.node op (mark_dirty env l).tree
        (mark_dirty env r).tree
        ((mark_dirty env l).res || (mark_dirty env r).res) res)
      refine ⟨ml, mr, fun hor => ?_⟩
      rw [Bool.or_eq_false_iff] at hor
      have hgl : getDirty (mark_dirty env l).tree = false :=
        (mark_res_eq env l).symm.trans hor.1
      have hgr : getDirty (mark_dirty env r).tree = false :=
        (mark_res_eq env r).symm.trans hor.2
      obtain ⟨_, cvl, _⟩ := markedInv_clean env _ ml hgl
      obtain ⟨_, cvr, _⟩ := markedInv_clean env _ mr hgr
      refine ⟨hgl, hgr, ?_⟩
      rw [← cvl, ← cvr, cacheVal_mark, cacheVal_mark]
      exact hres

/-- An all-dirty tree already satisfies the marked-tree invariant (all its
clauses are conditioned on cleanliness). -/
theorem allDirty_markedInv (env : Env) (t : Memoize) (h : allDirty t = true) :
    markedInv env t := by
  induction t with
  | term i d =>
      simp only [allDirty] at h
      subst h
      simp [markedInv]
  | node op l r d res ihl ihr =>
      simp only [allDirty, Bool.and_eq_true] at h
      obtain ⟨⟨hd, hal⟩, har⟩ := h
      subst hd
      exact ⟨ihl hal, ihr har, by simp⟩

/-- Marking any tree in a lifecycle state (all dirty, or all clean and
coherent) establishes the marked-tree invariant. -/
theorem mark_markedInv (env : Env) (t : Memoize) (h : rInv t) :
    markedInv env (mark_dirty env t).tree := by
  rcases h with hd | ⟨hc, hco⟩
  · cases t with
    | term i d => simp [mark_dirty, markedInv]
    | node op l r d res =>
        have hdd : d = true := by
          simp only [allDirty, Bool.and_eq_true] at hd
          exact hd.1.1
        subst hdd
        show markedInv env (Memoize.node op l r true res)
        exact allDirty_markedInv env _ hd
  · exact mark_markedInv_clean env t hc hco

/-! ### Main correctness of reevaluate on lifecycle states -/

/-- From any lifecycle state, reevaluate returns the direct evaluation of the
expression over the current external values and leaves the whole tree clean
with coherent caches. -/
theorem reevaluate_rinv (env : Env) (t : Memoize) (h : rInv t) :
    (reevaluate env t).2 = directEval env t ∧
    allClean (reevaluate env t).1 = true ∧ consistent (reevaluate env t).1 := by
  have hm := mark_markedInv env t h
  obtain ⟨hv, hc, hco⟩ := eval_cache_correct env _ hm
  refine ⟨?_, hc, hco⟩
  calc (reevaluate env t).2
      = (eval_cache env (mark_dirty env t).tree).val := rfl
    _ = directEval env (mark_dirty env t).tree := hv
    _ = directEval env t := directEval_mark env env t

/-- A freshly built tree is dirty everywhere. -/
theorem built_allDirty (t : Memoize) (h : Built t) : allDirty t = true := by
  induction h with
  | term v => rfl
  | node op res hl hr ihl ihr => simp [allDirty, ihl, ihr]

/-- Every reachable state of the lifecycle is either all dirty (fresh) or all
clean with coherent caches. -/
theorem reachable_rInv (env : Env) (t : Memoize) (h : Reachable env t) :
    rInv t := by
  induction h with
  | fresh hb => exact Or.inl (built_allDirty _ hb)
  | mutate v x h ih => exact ih
  | reeval h ih =>
      obtain ⟨_, hc, hco⟩ := reevaluate_rinv _ _ ih
      exact Or.inr ⟨hc, hco⟩

/-! ### The cache-coherence invariant across the lifecycle -/

/-- An all-clean tree has a clean root. -/
theorem allClean_getDirty (t : Memoize) (h : allClean t = true) :
    getDirty t = false := by
  cases t with
  | term i d => simpa [allClean, getDirty] using h
  | node op l r d res =>
      simp only [allClean, Bool.and_eq_true, Bool.not_eq_true'] at h
      exact h.1.1

/-- An all-dirty tree satisfies the cache-coherence invariant vacuously. -/
theorem allDirty_cachedInv (t : Memoize) (h : allDirty t = true) :
    cachedInv t := by
  induction t with
  | term i d => trivial
  | node op l r d res ihl ihr =>
      simp only [allDirty, Bool.and_eq_true] at h
      obtain ⟨⟨hd, hal⟩, har⟩ := h
      exact ⟨ihl hal, ihr har, by simp [hd]⟩

/-- An all-clean tree with coherent caches satisfies the cache-coherence
invariant. -/
theorem clean_consistent_cachedInv (t : Memoize) (h1 : allClean t = true)
    (h2 : consistent t) : cachedInv t := by
  induction t with
  | term i d => trivial
  | node op l r d res ihl ihr =>
      simp only [allClean, Bool.and_eq_true, Bool.not_eq_true'] at h1
      obtain ⟨⟨hd, hacl⟩, hacr⟩ := h1
      obtain ⟨col, cor, hres⟩ := h2
      exact ⟨ihl hacl col, ihr hacr cor,
        fun _ => ⟨allClean_getDirty l hacl, allClean_getDirty r hacr, hres⟩⟩

/-- Both lifecycle states satisfy the cache-coherence invariant. -/
theorem rInv_cachedInv (t : Memoize) (h : rInv t) : cachedInv t := by
  rcases h with hd | ⟨hc, hco⟩
  · exact allDirty_cachedInv t hd
  · exact clean_consistent_cachedInv t hc hco

/-- The marking pass preserves the cache-coherence invariant from any state
satisfying it. -/
theorem mark_cachedInv (env : Env) (t : Memoize) (h : cachedInv t) :
    cachedInv (mark_dirty env t).tree := by
  induction t with
  | term i d => trivial
  | node op l r d res ihl ihr =>
      obtain ⟨hl, hr, himp⟩ := h
      cases d with
      | true => exact ⟨hl, hr, by simp⟩
      | false =>
          show cachedInv (Memoize.node op (mark_dirty env l).tree
            (mark_dirty env r).tree
            ((mark_dirty env l).res || (mark_dirty env r).res) res)
          refine ⟨ihl hl, ihr hr, fun hor => ?_⟩
          rw [Bool.or_eq_false_iff] at hor
          obtain ⟨hdl, hdr, hres⟩ := himp rfl
          refine ⟨(mark_res_eq env l).symm.trans hor.1,
                  (mark_res_eq env r).symm.trans hor.2, ?_⟩
          rw [cacheVal_mark, cacheVal_mark]
          exact hres

/-- The evaluation pass preserves the cache-coherence invariant from any
state satisfying it. -/
theorem eval_cachedInv (env : Env) (t : Memoize) (h : cachedInv t) :
    cachedInv (eval_cache env t).tree := by
  induction t with
  | term i d => trivial
  | node op l r d res ihl ihr =>
      obtain ⟨hl, hr, himp⟩ := h
      cases d with
      | false => exact ⟨hl, hr, himp⟩
      | true =>
          show cachedInv (Memoize.node op (eval_cache env l).tree
            (eval_cache env r).tree false
            (op (eval_cache env l).val (eval_cache env r).val))
          refine ⟨ihl hl, ihr hr,
            fun _ => ⟨eval_root_clean env l, eval_root_clean env r, ?_⟩⟩
          rw [← eval_val_cacheVal env l, ← eval_val_cacheVal env r]

/-! ### Counting lemmas for the instrumentation -/

/-- Marking an entirely clean tree compares every terminal exactly once. -/
theorem mark_comps_allClean (env : Env) (t : Memoize) (h : allClean t = true) :
    (mark_dirty env t).comps = numTerms t := by
  induction t with
  | term i d => rfl
  | node op l r d res ihl ihr =>
      simp only [allClean, Bool.and_eq_true, Bool.not_eq_true'] at h
      obtain ⟨⟨hd, hacl⟩, hacr⟩ := h
      subst hd
      show (mark_dirty env l).comps + (mark_dirty env r).comps
        = numTerms l + numTerms r
      rw [ihl hacl, ihr hacr]

/-- Evaluating an all-dirty tree applies every operator and refreshes every
terminal. -/
theorem allDirty_eval_counts (env : Env) (t : Memoize) (h : allDirty t = true) :
    (eval_cache env t).ops = numOps t ∧ (eval_cache env t).terms = numTerms t := by
  induction t with
  | term i d => exact ⟨rfl, rfl⟩
  | node op l r d res ihl ihr =>
      simp only [allDirty, Bool.and_eq_true] at h
      obtain ⟨⟨hd, hal⟩, har⟩ := h
      subst hd
      obtain ⟨ol, tl⟩ := ihl hal
      obtain ⟨onr, tnr⟩ := ihr har
      constructor
      · show (eval_cache env l).ops + (eval_cache env r).ops + 1
          = numOps l + numOps r + 1
        rw [ol, onr]
      · show (eval_cache env l).terms + (eval_cache env r).terms
          = numTerms l + numTerms r
        rw [tl, tnr]

/-- On an all-dirty tree, the mark-then-evaluate sequence still applies every
operator and refreshes every terminal (the marking pass short-circuits at the
dirty root of an operator tree, and a lone terminal is refreshed by the
evaluation pass regardless of its flag). -/
theorem allDirty_mark_eval_counts (env : Env) (t : Memoize)
    (h : allDirty t = true) :
    (eval_cache env (mark_dirty env t).tree).ops = numOps t ∧
    (eval_cache env (mark_dirty env t).tree).terms = numTerms t := by
  cases t with
  | term i d => exact ⟨rfl, rfl⟩
  | node op l r d res =>
      have hd : d = true := by
        simp only [allDirty, Bool.and_eq_true] at h
        exact h.1.1
      subst hd
      exact allDirty_eval_counts env (Memoize.node op l r true res) h

/-! ### Construction-phase lemmas -/

/-- Every terminal cache of a freshly built tree holds the
value-initialized default. -/
theorem built_cachesDefault (t : Memoize) (h : Built t) :
    cachesDefault t = true := by
  induction h with
  | term v => rfl
  | node op res hl hr ihl ihr => simp [cachesDefault, ihl, ihr]

/-- The demo tree a + b + c is a construction-phase tree. -/
theorem treeABC_built : Built treeABC :=
  Built.node addOp 0
    (Built.node addOp 0 (Built.term 0) (Built.term 1)) (Built.term 2)

/-- The tree (a+b)+(c+d) is a construction-phase tree. -/
theorem tree4_built : Built tree4 :=
  Built.node addOp 0
    (Built.node addOp 0 (Built.term 0) (Built.term 1))
    (Built.node addOp 0 (Built.term 2) (Built.term 3))

/-- The tree a + b is a construction-phase tree. -/
theorem treeC2_built : Built treeC2 :=
  Built.node addOp 0 (Built.term 0) (Built.term 1)

/-! ### Claim theorems -/

/-- C1: for every expression tree built from input terminals and binary
operators, and every interleaving of external-value mutations with
reevaluate calls, a reevaluate call returns exactly the value that direct,
uncached evaluation of the expression over the current external values
produces: the memoized two-pass algorithm is observationally equivalent to
naive re-evaluation. -/
theorem reevaluate_refines_direct (env : Env) (t : Memoize)
    (h : Reachable env t) : (reevaluate env t).2 = directEval env t :=
  (reevaluate_rinv env t (reachable_rInv env t h)).1

/-- C1 witness: the refinement theorem at the demo tree a+b+c in the state
reached by one reevaluate call followed by the mutation b = 16. -/
theorem reevaluate_refines_direct_witness :
    (reevaluate envABC2 treeABC1).2 = directEval envABC2 treeABC1 :=
  reevaluate_refines_direct envABC2 treeABC1
    (Reachable.mutate 1 16 (Reachable.reeval (Reachable.fresh treeABC_built)))

/-- C2 counterexample: the claim as stated fails.  After reevaluating the
fresh tree a+b (a=1, b=2) and then mutating a to 10, the tree is reachable,
its root operator node is clean (dirty = false), but its cached result is 3
while evaluating its current children over the current external values gives
10 + 2 = 12. -/
theorem cachedResult_current_counterexample :
    Reachable envC2m treeC2e ∧ getDirty treeC2e = false ∧
    cacheVal treeC2e = 3 ∧
    addOp (directEval envC2m (childL treeC2e))
      (directEval envC2m (childR treeC2e)) = 12 :=
  ⟨Reachable.mutate 0 10 (Reachable.reeval (Reachable.fresh treeC2_built)),
   by decide, by decide, by decide⟩

/-- C2 (amended): in every reachable state, whenever an operator node's dirty
flag is false its children are clean too and its cachedResult equals its
operator applied to its children's currently cached values (terminal caches
and child cachedResults — not necessarily the current external values, which
may have been mutated since); and from any state satisfying this invariant,
both the marking pass and the evaluation pass preserve it. -/
theorem cachedInv_lifecycle (env : Env) (t : Memoize)
    (h : Reachable env t ∨ cachedInv t) :
    cachedInv t ∧ cachedInv (mark_dirty env t).tree ∧
    cachedInv (eval_cache env t).tree := by
  have hc : cachedInv t := by
    rcases h with hr | hc
    · exact rInv_cachedInv t (reachable_rInv env t hr)
    · exact hc
  exact ⟨hc, mark_cachedInv env t hc, eval_cachedInv env t hc⟩

/-- C2 witness: the amended invariant at the reachable state used in the
counterexample (clean stale tree after a mutation), and its preservation by
the two passes there. -/
theorem cachedInv_lifecycle_witness :
    cachedInv treeC2e ∧ cachedInv (mark_dirty envC2m treeC2e).tree ∧
    cachedInv (eval_cache envC2m treeC2e).tree :=
  cachedInv_lifecycle envC2m treeC2e
    (Or.inl (Reachable.mutate 0 10 (Reachable.reeval (Reachable.fresh treeC2_built))))

/-- C3: from any reachable state, with external values unchanged, two
consecutive reevaluate calls return equal results, and after the first of
the two calls every node's dirty flag is false. -/
theorem reevaluate_idempotent (env : Env) (t : Memoize)
    (h : Reachable env t) :
    allClean (reevaluate env t).1 = true ∧
    (reevaluate env (reevaluate env t).1).2 = (reevaluate env t).2 := by
  have h1 := reevaluate_rinv env t (reachable_rInv env t h)
  have h2 := reevaluate_rinv env (reevaluate env t).1 (Or.inr ⟨h1.2.1, h1.2.2⟩)
  refine ⟨h1.2.1, ?_⟩
  rw [h2.1, h1.1, directEval_reevaluate]

/-- C3 witness: idempotence at the freshly built demo tree a+b+c. -/
theorem reevaluate_idempotent_witness :
    allClean (reevaluate envABC treeABC).1 = true ∧
    (reevaluate envABC (reevaluate envABC treeABC).1).2
      = (reevaluate envABC treeABC).2 :=
  reevaluate_idempotent envABC treeABC (Reachable.fresh treeABC_built)

/-- C4: starting from the fully evaluated a+b+c state (a=1, b=11, c=111,
every node clean, root cache 123), after the mutation b = 16 the reevaluate
call returns 128; during it the marking operation returns false on terminals
a and c and true on terminal b, the marked root is dirty, and the root's
evaluation recomputes rather than returning the stale cache: the evaluation
pass performs two operator applications and produces 128 ≠ 123. -/
theorem single_change_propagation :
    allClean treeABC1 = true ∧
    cacheVal treeABC1 = 123 ∧
    (mark_dirty envABC2 (childL (childL treeABC1))).res = false ∧
    (mark_dirty envABC2 (childR (childL treeABC1))).res = true ∧
    (mark_dirty envABC2 (childR treeABC1)).res = false ∧
    getDirty (mark_dirty envABC2 treeABC1).tree = true ∧
    (eval_cache envABC2 (mark_dirty envABC2 treeABC1).tree).ops = 2 ∧
    (reevaluate envABC2 treeABC1).2 = 128 := by
  decide

/-- C5: in the fully evaluated tree (a+b)+(c+d), after mutating only a, the
marking pass leaves the root and the left subtree dirty and the right
subtree clean; the evaluation pass then performs exactly two operator
applications — one inside the left subtree and one at the root — while the
clean right subtree performs zero operator applications and returns its
cached result unchanged. -/
theorem clean_subtree_skip :
    allClean tree41 = true ∧
    getDirty tree4m = true ∧
    getDirty (childL tree4m) = true ∧
    getDirty (childR tree4m) = false ∧
    (eval_cache env4b tree4m).ops = 2 ∧
    (eval_cache env4b (childL tree4m)).ops = 1 ∧
    (eval_cache env4b (childR tree4m)).ops = 0 ∧
    (eval_cache env4b (childR tree4m)).val = cacheVal (childR tree4m) ∧
    (eval_cache env4b tree4m).val = 19 := by
  decide

/-- C6 counterexample: the claim as stated fails on the very first trigger
call.  On the freshly built tree a+b every node is dirty, so the marking
pass short-circuits at the root and performs zero terminal comparisons,
although the tree has two terminals. -/
theorem first_mark_skips_terminals :
    allDirty treeC2 = true ∧
    (mark_dirty envC2 treeC2).comps = 0 ∧ numTerms treeC2 = 2 := by
  decide

/-- C6 (amended): a marking pass that starts on an entirely clean tree — the
state left by every completed reevaluate call, hence every trigger call
after the first — invokes the comparison-based marking operation on every
terminal exactly once; but on a tree whose operator root is already dirty,
in particular on the very first call after construction, the pass returns
immediately and compares no terminal at all. -/
theorem mark_comps_characterization (env : Env) (t : Memoize) :
    (allClean t = true → (mark_dirty env t).comps = numTerms t) ∧
    (getDirty t = true → 0 < numOps t → (mark_dirty env t).comps = 0) := by
  refine ⟨mark_comps_allClean env t, ?_⟩
  intro hd hops
  cases t with
  | term i d => simp [numOps] at hops
  | node op l r d res =>
      simp only [getDirty] at hd
      subst hd
      rfl

/-- C6 witness: all terminals of the evaluated tree a+b are compared on the
next trigger, and no terminal of the fresh tree a+b is compared on the first
trigger. -/
theorem mark_comps_characterization_witness :
    ((mark_dirty envC2 treeC2e).comps = numTerms treeC2e) ∧
    ((mark_dirty envC2 treeC2).comps = 0) :=
  ⟨(mark_comps_characterization envC2 treeC2e).1 (by decide),
   (mark_comps_characterization envC2 treeC2).2 (by decide) (by decide)⟩

/-- C7: the marking operation on an already-dirty operator node returns true
immediately, leaving both children untouched and performing zero terminal
comparisons; on a clean operator node it applies the marking operation to
both children in order — the right sibling is marked unconditionally, even
when the left sibling's result is already true — sets the node's dirty flag
to the logical OR of the children's results, and returns that value. -/
theorem mark_node_characterization (env : Env) (op : Int → Int → Int)
    (l r : Memoize) (res : Int) :
    mark_dirty env (Memoize.node op l r true res)
      = ⟨Memoize.node op l r true res, true, 0⟩ ∧
    mark_dirty env (Memoize.node op l r false res)
      = ⟨Memoize.node op (mark_dirty env l).tree (mark_dirty env r).tree
          ((mark_dirty env l).res || (mark_dirty env r).res) res,
         (mark_dirty env l).res || (mark_dirty env r).res,
         (mark_dirty env l).comps + (mark_dirty env r).comps⟩ :=
  ⟨rfl, rfl⟩

/-- C8: on the tree built from terminals a=1, b=11, c=111 composed as
a + b + c, reevaluate returns 123. -/
theorem first_reevaluate_returns_123 :
    (reevaluate envABC treeABC).2 = 123 := by
  decide

/-- C9: invoking a reevaluation slot with no tree bound is a total no-op:
the invocation completes and the slot's state is unchanged. -/
theorem renderInvoke_no_tree (env : Env) : renderInvoke env none = none :=
  rfl

/-- C10: a freshly built tree has every terminal's private cache holding the
value-initialized default 0 (not a copy of the referenced external value)
and every node's dirty flag true; consequently the first reevaluate — for
every environment, also one whose values all equal the default caches —
applies every operator and refreshes every terminal. -/
theorem built_first_reevaluate_recomputes (env : Env) (t : Memoize)
    (h : Built t) :
    allDirty t = true ∧ cachesDefault t = true ∧
    (eval_cache env (mark_dirty env t).tree).ops = numOps t ∧
    (eval_cache env (mark_dirty env t).tree).terms = numTerms t := by
  have had := built_allDirty t h
  obtain ⟨ho, ht⟩ := allDirty_mark_eval_counts env t had
  exact ⟨had, built_cachesDefault t h, ho, ht⟩

/-- C10 witness: the fresh tree a+b evaluated against the all-zero
environment, whose values coincide with the default caches, still recomputes
every node. -/
theorem built_first_reevaluate_recomputes_witness :
    allDirty treeC2 = true ∧ cachesDefault treeC2 = true ∧
    (eval_cache envZero (mark_dirty envZero treeC2).tree).ops = numOps treeC2 ∧
    (eval_cache envZero (mark_dirty envZero treeC2).tree).terms = numTerms treeC2 :=
  built_first_reevaluate_recomputes envZero treeC2 treeC2_built
